import Mathlib

/-!
Verification of the oxynth polyphonic synthesizer core (src/synth.rs,
src/usb_midi_in.rs, src/main.rs) against its natural-language specification.

Modelling conventions:
* `f32` arithmetic is modelled by exact rational arithmetic over `ℚ`.
  Rounding of `f32` operations is not modelled; decimal literals from the
  source are taken at their written value.
* The `micromath` crate's `sin` and `powf` are external approximations, so
  the sine table is an uninterpreted parameter `sinA : ℚ → ℚ` (standing for
  the whole expression `(2.0 * PI * phase).sin()` as a function of its
  argument) and the note-to-frequency table is an uninterpreted parameter
  `freqOf : ℕ → ℚ`.  The ideal real-number semantics of
  `midi_note_to_freq` is modelled separately over `ℝ` for the frequency
  claims.
* The f32 constant `core::f32::consts::PI` is the exact rational value of
  that bit pattern, `13176795 / 2^22`.
* `u8` and `u32` values are modelled as `ℕ`; `wrapping_add` on the `u32`
  age counter is modelled by reduction mod `2^32`.
* The heapless SPSC queue (an external crate) is modelled from its usage
  contract in the source: `enqueue` returns an error on a full queue and
  the producers discard that error, so a push on a full queue drops the
  newly pushed event; `dequeue` removes the front element.
-/

def SAMPLE_RATE : ℕ := 48000

def N_VOICES : ℕ := 10

def MIDI_QUEUE_SIZE : ℕ := 32

/-- Exact rational value of the `f32` constant `core::f32::consts::PI`. -/
def PI32 : ℚ := 13176795 / 4194304

/-- Mirrors `struct MidiEvent { status: u8, data1: u8, data2: u8 }`. -/
structure MidiEvent where
  status : ℕ
  data1 : ℕ
  data2 : ℕ
deriving DecidableEq

inductive Waveform
  | Sine
  | Square
  | Sawtooth
  | Triangle
deriving DecidableEq

inductive EnvStage
  | Idle
  | Attack
  | Decay
  | Sustain
  | Release
deriving DecidableEq

/-- Mirrors `struct Voice` in src/synth.rs. -/
structure Voice where
  note : ℕ
  freq : ℚ
  target_amp : ℚ
  env : ℚ
  gate : Bool
  phase : ℚ
  age : ℕ
  stage : EnvStage
  attack_inc : ℚ
  decay_inc : ℚ
  sustain_level : ℚ
  release_inc : ℚ
  filter_buf0 : ℚ
  filter_buf1 : ℚ
deriving DecidableEq

/-- Mirrors `Voice::new()`. -/
def Voice.new : Voice :=
  { note := 0
    freq := 0
    target_amp := 0
    env := 0
    gate := false
    phase := 0
    age := 0
    stage := EnvStage.Idle
    attack_inc := 0
    decay_inc := 0
    sustain_level := 1
    release_inc := 0
    filter_buf0 := 0
    filter_buf1 := 0 }

/-- Mirrors `Voice::active`: `self.stage != EnvStage::Idle || self.env > 1e-6`. -/
def Voice.active (v : Voice) : Bool :=
  decide (v.stage ≠ EnvStage.Idle) || decide ((1 : ℚ)/1000000 < v.env)

/-- Mirrors `Voice::start_with_adsr`. -/
def Voice.startWithAdsr (v : Voice) (note : ℕ) (freq vel_amp : ℚ) (age : ℕ)
    (attack_s decay_s sustain_level : ℚ) : Voice :=
  let target := vel_amp
  let attack_samples := max (attack_s * (SAMPLE_RATE : ℚ)) 1
  let attack_inc := if 0 < attack_samples then target / attack_samples else target
  let decay_samples := max (decay_s * (SAMPLE_RATE : ℚ)) 1
  let sustain_target := sustain_level * target
  let decay_inc :=
    if 0 < decay_samples then (target - sustain_target) / decay_samples
    else target - sustain_target
  { v with
    note := note
    freq := freq
    target_amp := target
    gate := true
    age := age
    sustain_level := sustain_level
    attack_inc := attack_inc
    decay_inc := decay_inc
    release_inc := 0
    stage := EnvStage.Attack
    -- `if self.env <= 0.0 { self.env = 0.0; }` : the current level is kept
    env := if v.env ≤ 0 then 0 else v.env }

/-- Mirrors `Voice::note_off`. -/
def Voice.noteOff (v : Voice) (release_s : ℚ) : Voice :=
  let release_samples := max (release_s * (SAMPLE_RATE : ℚ)) 1
  let release_inc :=
    if 0 < release_samples then v.env / release_samples else v.env
  { v with
    gate := false
    release_inc := release_inc
    stage := EnvStage.Release }

/-- Mirrors the per-sample envelope state machine, lines 210-241 of
src/synth.rs (the `match v.stage` block run once per voice per sample). -/
def envStep (v : Voice) : Voice :=
  match v.stage with
  | EnvStage.Idle => v
  | EnvStage.Attack =>
      let e := v.env + v.attack_inc
      if v.target_amp ≤ e then
        { v with env := v.target_amp, stage := EnvStage.Decay }
      else
        { v with env := e }
  | EnvStage.Decay =>
      let e := v.env - v.decay_inc
      let s := v.sustain_level * v.target_amp
      if e ≤ s then
        { v with env := s, stage := EnvStage.Sustain }
      else
        { v with env := e }
  | EnvStage.Sustain => v
  | EnvStage.Release =>
      let e := v.env - v.release_inc
      if e ≤ 0 then
        { v with env := 0, stage := EnvStage.Idle, gate := false }
      else
        { v with env := e }

/-- Mirrors the per-sample phase advance, lines 243-252 of src/synth.rs. -/
def phaseStep (v : Voice) : Voice :=
  let inc := if 0 < v.freq then v.freq / (SAMPLE_RATE : ℚ) else 0
  let p := v.phase + inc
  { v with phase := if 1 ≤ p then p - 1 else p }

/-- Filter frequency coefficient:
`let f = (cutoff_freq * PI).min(1.5)` with `cutoff_freq = filter_cutoff * 0.5`
(lines 279-283 of src/synth.rs). -/
def filterF (cutoff : ℚ) : ℚ := min (cutoff * (1/2) * PI32) (3/2)

/-- Filter damping factor:
`let q = 1.0 - resonance * 0.24; let q_clamped = q.max(0.05)`
(lines 284-285 of src/synth.rs). -/
def filterQ (resonance : ℚ) : ℚ := max (1 - resonance * (6/25)) (1/20)

/-- Waveform sample from phase (lines 255-275 of src/synth.rs).  For `Sine`,
`sinA` stands for `phase ↦ (2.0 * PI * phase).sin()` computed by micromath. -/
def waveSample (sinA : ℚ → ℚ) (wf : Waveform) (phase : ℚ) : ℚ :=
  match wf with
  | Waveform.Sine => sinA (2 * PI32 * phase)
  | Waveform.Square => if phase < 1/2 then 1 else -1
  | Waveform.Sawtooth => 2 * phase - 1
  | Waveform.Triangle => if phase < 1/2 then 4 * phase - 1 else 3 - 4 * phase

/-- Body of the per-voice inner loop of `Synth::process` (lines 208-296):
envelope step, phase step, and when the envelope is positive the filtered
sample is accumulated into the running mix and the filter state updated. -/
def voiceSampleStep (sinA : ℚ → ℚ) (wf : Waveform) (cutoff resonance : ℚ)
    (mix : ℚ) (v : Voice) : ℚ × Voice :=
  let v1 := phaseStep (envStep v)
  if 0 < v1.env then
    let sample := waveSample sinA wf v1.phase
    let f := filterF cutoff
    let q := filterQ resonance
    let lowpass := v1.filter_buf1 + f * v1.filter_buf0
    let highpass := sample - lowpass - q * v1.filter_buf0
    let bandpass := f * highpass + v1.filter_buf0
    (mix + lowpass * v1.env,
     { v1 with filter_buf0 := bandpass, filter_buf1 := lowpass })
  else (mix, v1)

/-- The per-sample loop over all voices, accumulating the mix. -/
def mixVoices (sinA : ℚ → ℚ) (wf : Waveform) (cutoff resonance : ℚ) :
    ℚ → List Voice → ℚ × List Voice
  | mix, [] => (mix, [])
  | mix, v :: vs =>
      let mv := voiceSampleStep sinA wf cutoff resonance mix v
      let rest := mixVoices sinA wf cutoff resonance mv.1 vs
      (rest.1, mv.2 :: rest.2)

def MAX_AMPLITUDE : ℤ := 12000

/-- Truncation toward zero, the rounding used by Rust float-to-int casts. -/
def ratTrunc (x : ℚ) : ℤ := if 0 ≤ x then ⌊x⌋ else ⌈x⌉

/-- Rust `as i16` on an `f32`: rounds toward zero and saturates at the
bounds of the target type (never wraps, never panics). -/
def i16OfRat (x : ℚ) : ℤ := max (-32768) (min 32767 (ratTrunc x))

/-- Mirrors `pack_lr_16`: left sample in the high 16 bits, right in the low
16 bits, both as two's-complement `u16` images of the `i16` values. -/
def pack_lr_16 (l r : ℤ) : ℕ := (l % 65536).toNat <<< 16 ||| (r % 65536).toNat

/-- Lines 299-302 of src/synth.rs: normalize the mix by the voice count,
scale by `MAX_AMPLITUDE`, cast to `i16` and pack the mono sample. -/
def mixToWord (mix : ℚ) : ℕ :=
  let mix_norm := mix / (N_VOICES : ℚ)
  let sample := i16OfRat ((MAX_AMPLITUDE : ℚ) * mix_norm)
  pack_lr_16 sample sample

/-- Mirrors `struct Synth` (minus the queue consumer handle, which is
modelled by passing the queued events to `process` explicitly). -/
structure Synth where
  voices : List Voice
  age_counter : ℕ
  waveform : Waveform
  attack_time_s : ℚ
  decay_time_s : ℚ
  sustain_level : ℚ
  release_time_s : ℚ
  filter_cutoff : ℚ
  filter_resonance : ℚ
deriving DecidableEq

/-- Mirrors `Synth::new`. -/
def Synth.new : Synth :=
  { voices := List.replicate N_VOICES Voice.new
    age_counter := 0
    waveform := Waveform.Sine
    attack_time_s := 1/200
    decay_time_s := 1/20
    sustain_level := 1/5
    release_time_s := 1/2
    filter_cutoff := 1/2
    filter_resonance := 1/2 }

/-- Mirrors `self.voices.iter().position(|v| !v.active())`. -/
def firstInactive : List Voice → Option ℕ
  | [] => none
  | v :: vs =>
      if v.active then (firstInactive vs).map (fun n => n + 1) else some 0

/-- Fold of Rust `min_by(|a, b| a.1.age.cmp(&b.1.age))`: the running best is
replaced only when the candidate's age is strictly smaller, so the first
minimal element wins.  `k` is the index of the head of the remaining list. -/
def minByAgeGo : ℕ → ℕ × Voice → List Voice → ℕ × Voice
  | _, best, [] => best
  | k, best, w :: ws =>
      minByAgeGo (k + 1) (if w.age < best.2.age then (k, w) else best) ws

/-- Mirrors `self.voices.iter().enumerate().min_by(|a, b| a.1.age.cmp(&b.1.age))`:
pairs each voice with its index and folds keeping the first minimal age. -/
def minByAge : List Voice → Option (ℕ × Voice)
  | [] => none
  | v :: vs => some (minByAgeGo 1 (0, v) vs)

/-- Voice selection of the note-on handler (lines 151 and 164-169 of
src/synth.rs): first inactive voice if any, else the voice with the
smallest age.  Both branches of the source then run the same assignment. -/
def chooseVoice (voices : List Voice) : Option ℕ :=
  match firstInactive voices with
  | some i => some i
  | none => (minByAge voices).map (fun p => p.1)

/-- Replace the element at one index, leaving everything else unchanged. -/
def modifyAt (f : Voice → Voice) : List Voice → ℕ → List Voice
  | [], _ => []
  | v :: vs, 0 => f v :: vs
  | v :: vs, n + 1 => v :: modifyAt f vs n

/-- Note-on handling for positive velocity (lines 146-181 of src/synth.rs).
`freqOf` stands for `midi_note_to_freq` computed in `f32` by micromath. -/
def noteOn (freqOf : ℕ → ℚ) (s : Synth) (note vel : ℕ) : Synth :=
  let vel_amp : ℚ := (vel : ℚ) / 127
  let freq := freqOf note
  match chooseVoice s.voices with
  | some idx =>
      let newAge := (s.age_counter + 1) % 4294967296
      { s with
        age_counter := newAge
        voices := modifyAt
          (fun v => v.startWithAdsr note freq vel_amp newAge
            s.attack_time_s s.decay_time_s s.sustain_level)
          s.voices idx }
  | none => s

/-- Note-off handling (lines 192-200, also 182-190 for velocity-0 note-on):
every matching gated voice is sent to `Voice::note_off`. -/
def noteOffAll (s : Synth) (note : ℕ) : Synth :=
  { s with
    voices := s.voices.map (fun v =>
      if v.note = note ∧ v.gate = true then v.noteOff s.release_time_s else v) }

/-- CC 26 mapping (line 133 of src/synth.rs): `cc_val as f32 / 127.0`. -/
def ccToCutoff (v : ℕ) : ℚ := (v : ℚ) / 127

/-- CC 27 mapping (line 138 of src/synth.rs): `(cc_val as f32 / 127.0) * 4.0`. -/
def ccToResonance (v : ℕ) : ℚ := ((v : ℚ) / 127) * 4

/-- Control-change handling (lines 89-142 of src/synth.rs). -/
def applyCC (s : Synth) (cc v : ℕ) : Synth :=
  if cc = 21 then
    { s with waveform :=
        if v ≤ 31 then Waveform.Sine
        else if v ≤ 63 then Waveform.Square
        else if v ≤ 95 then Waveform.Sawtooth
        else if v ≤ 127 then Waveform.Triangle
        else Waveform.Sine }
  else if cc = 22 then
    { s with attack_time_s := 1/1000 + ((v : ℚ)/127) * (1999/1000) }
  else if cc = 23 then
    { s with decay_time_s := 1/1000 + ((v : ℚ)/127) * (1999/1000) }
  else if cc = 24 then
    { s with sustain_level := (v : ℚ)/127 }
  else if cc = 25 then
    { s with release_time_s := 1/1000 + ((v : ℚ)/127) * (2999/1000) }
  else if cc = 26 then
    { s with filter_cutoff := ccToCutoff v }
  else if cc = 27 then
    { s with filter_resonance := ccToResonance v }
  else s

/-- Dispatch of one dequeued MIDI event on its status nibble
(lines 87-202 of src/synth.rs). -/
def applyEvent (freqOf : ℕ → ℚ) (s : Synth) (e : MidiEvent) : Synth :=
  let nyb := e.status &&& 240
  if nyb = 176 then applyCC s e.data1 e.data2
  else if nyb = 144 then
    if 0 < e.data2 then noteOn freqOf s e.data1 e.data2
    else noteOffAll s e.data1
  else if nyb = 128 then noteOffAll s e.data1
  else s

/-- The `while let Some(event) = self.cons.dequeue()` loop: events are
dequeued from the front and applied in order until the queue is empty. -/
def drainLoop (freqOf : ℕ → ℚ) : Synth → List MidiEvent → Synth × List MidiEvent
  | s, [] => (s, [])
  | s, e :: rest => drainLoop freqOf (applyEvent freqOf s e) rest

/-- The `for w in buf.iter_mut()` render loop: each input word is
overwritten with the freshly computed frame; its previous value is never
read. -/
def renderLoop (sinA : ℚ → ℚ) : Synth → List ℕ → List ℕ × Synth
  | s, [] => ([], s)
  | s, _w :: rest =>
      let mv := mixVoices sinA s.waveform s.filter_cutoff s.filter_resonance 0 s.voices
      let word := mixToWord mv.1
      let s2 := { s with voices := mv.2 }
      let r := renderLoop sinA s2 rest
      (word :: r.1, r.2)

inductive ControlFlowU
  | Continue
  | Break
deriving DecidableEq

structure ProcessResult where
  synth : Synth
  pending : List MidiEvent
  buf : List ℕ
  flow : ControlFlowU
deriving DecidableEq

/-- Mirrors `Synth::process`: drain the event queue, then render every
frame of the buffer, then return `ControlFlow::Continue(())`. -/
def process (sinA : ℚ → ℚ) (freqOf : ℕ → ℚ) (s : Synth) (q : List MidiEvent)
    (buf : List ℕ) : ProcessResult :=
  let d := drainLoop freqOf s q
  let r := renderLoop sinA d.1 buf
  { synth := r.2, pending := d.2, buf := r.1, flow := ControlFlowU.Continue }

/-- Synth states reachable from `Synth::new` by `process` calls with
arbitrary queue contents and buffers. -/
inductive Reachable (sinA : ℚ → ℚ) (freqOf : ℕ → ℚ) : Synth → Prop
  | init : Reachable sinA freqOf Synth.new
  | step (s : Synth) (q : List MidiEvent) (buf : List ℕ) :
      Reachable sinA freqOf s →
      Reachable sinA freqOf (process sinA freqOf s q buf).synth

/-- Queue push as the producers use it: `let _ = prod.enqueue(event)` on the
heapless SPSC queue of capacity `MIDI_QUEUE_SIZE` — the new event is
appended at the back when there is room and silently dropped otherwise. -/
def queuePush (q : List MidiEvent) (e : MidiEvent) : List MidiEvent :=
  if q.length < MIDI_QUEUE_SIZE then q ++ [e] else q

/-- Consumer drain: the `while let Some(event) = self.cons.dequeue()` loop
removes all queued events from the front, in FIFO order. -/
def queueDrain (q : List MidiEvent) : List MidiEvent × List MidiEvent := (q, [])

/-- The status nibble is Note-Off, Note-On or Control-Change. -/
def nibbleOK (e : MidiEvent) : Prop :=
  e.status &&& 240 = 128 ∨ e.status &&& 240 = 144 ∨ e.status &&& 240 = 176

instance (e : MidiEvent) : Decidable (nibbleOK e) := by
  unfold nibbleOK; infer_instance

/-- Per-packet behaviour of the producer in `usb_input_task`
(src/usb_midi_in.rs lines 47-68): bytes 1-3 of the 4-byte USB-MIDI packet
are taken as status/data1/data2 and enqueued only when the status nibble is
Control-Change, Note-On or Note-Off. -/
def usbHandlePacket (q : List MidiEvent) (_b0 b1 b2 b3 : ℕ) : List MidiEvent :=
  let status := b1
  let data1 := b2
  let data2 := b3
  let nyb := status &&& 240
  if nyb = 176 ∨ nyb = 144 ∨ nyb = 128 then
    queuePush q { status := status, data1 := data1, data2 := data2 }
  else q

/-- Per-packet behaviour of the producer in `main` (src/main.rs lines
67-86): bytes 1-3 of the packet are enqueued unconditionally, with no
status-nibble filtering.  `b0` is the unused cable/code byte, as in
`usbHandlePacket`. -/
def mainHandlePacket (q : List MidiEvent) (_b0 b1 b2 b3 : ℕ) : List MidiEvent :=
  queuePush q { status := b1, data1 := b2, data2 := b3 }

/-- Claim C5 as stated: every producer in the source filters, so starting
from a queue whose events all have an allowed status nibble, the queue
keeps that property across any packet handled by either producer. -/
def producersFilterClaim : Prop :=
  (∀ (q : List MidiEvent) (b0 b1 b2 b3 : ℕ), (∀ e ∈ q, nibbleOK e) →
    ∀ e ∈ usbHandlePacket q b0 b1 b2 b3, nibbleOK e) ∧
  (∀ (q : List MidiEvent) (b0 b1 b2 b3 : ℕ), (∀ e ∈ q, nibbleOK e) →
    ∀ e ∈ mainHandlePacket q b0 b1 b2 b3, nibbleOK e)

/-- Ideal real-number semantics of `midi_note_to_freq`
(src/synth.rs lines 36-40): `440.0 * 2f32.powf(((note as i32 - 69) as f32) / 12.0)`. -/
noncomputable def midi_note_to_freq (note : ℕ) : ℝ :=
  440 * (2 : ℝ) ^ (((((note : ℤ) - 69 : ℤ) : ℝ)) / 12)

/-- Modelled from the spec: `freq = 440 * 2^((note-69)/12)` (A4 = note 69 =
440 Hz), stated independently of the source formula for comparison. -/
noncomputable def spec_frequency (note : ℕ) : ℝ :=
  440 * (2 : ℝ) ^ (((note : ℝ) - 69) / 12)

/-- A concrete instantiation of the uninterpreted sine approximation, used
to exhibit explicit runs.  The envelope fields of a reachable state do not
depend on the sine values. -/
def sin0 : ℚ → ℚ := fun _ => 0

/-- A concrete instantiation of the uninterpreted frequency table, used to
exhibit explicit runs.  The envelope fields of a reachable state do not
depend on the frequency values. -/
def freq0 : ℕ → ℚ := fun _ => 0

/-- Claim C1 as stated: in every reachable synth state, every voice whose
stage is `Attack` has its level moved non-decreasingly by the per-sample
envelope update, and the level never exceeds the voice's target amplitude. -/
def attackMonotoneClaim (sinA : ℚ → ℚ) (freqOf : ℕ → ℚ) : Prop :=
  ∀ s, Reachable sinA freqOf s → ∀ v ∈ s.voices, v.stage = EnvStage.Attack →
    v.env ≤ (envStep v).env ∧ (envStep v).env ≤ v.target_amp ∧
    v.env ≤ v.target_amp

/-- Event sequence for the explicit run refuting C1: set the attack time to
its minimum (CC 22 = 0), then start ten notes at full velocity, filling
every voice. -/
def cexQueue1 : List MidiEvent :=
  { status := 176, data1 := 22, data2 := 0 } ::
    (List.range 10).map (fun i => { status := 144, data1 := 60 + i, data2 := 127 })

/-- State after the first `process` call: all ten voices are in `Attack`
with level `1/48` after rendering one sample. -/
def cexSynth1 : Synth := (process sin0 freq0 Synth.new cexQueue1 [0]).synth

/-- State after the second `process` call: a note-on at velocity 1 finds no
inactive voice and steals voice 0, whose level `1/48` now exceeds the new
target amplitude `1/127`. -/
def cexSynth2 : Synth :=
  (process sin0 freq0 cexSynth1 [{ status := 144, data1 := 70, data2 := 1 }] []).synth

/-- A one-voice synth state holding a gated note at full level, used to
instantiate the note-off theorems at a concrete input. -/
def gatedSynth : Synth :=
  { Synth.new with voices := [{ Voice.new with gate := true, env := 1, note := 5 }] }

/-- A concrete voice in `Attack` below its target amplitude, used to
instantiate the attack-step theorem. -/
def attackVoice : Voice :=
  { Voice.new with stage := EnvStage.Attack, target_amp := 1, attack_inc := 1/2 }

section Claims

set_option allowUnsafeReducibility true
attribute [local semireducible] Rat.add Rat.mul Rat.inv Rat.sub

/-- C7: for every MIDI note number n, the computed frequency equals
`440 * 2^((n-69)/12)` (the spec formula, at ideal real semantics), and in
particular note 69 maps to 440 Hz and note 57 to 220 Hz. -/
theorem C7_midi_note_to_freq :
    (∀ n : ℕ, midi_note_to_freq n = spec_frequency n) ∧
    midi_note_to_freq 69 = 440 ∧ midi_note_to_freq 57 = 220 := by
  refine ⟨fun n => ?_, ?_, ?_⟩
  · unfold midi_note_to_freq spec_frequency
    norm_num
  · unfold midi_note_to_freq
    norm_num
  · unfold midi_note_to_freq
    rw [show (((((57 : ℕ) : ℤ) - 69 : ℤ) : ℝ)) / 12 = ((-1 : ℤ) : ℝ) by norm_num]
    rw [Real.rpow_intCast]
    norm_num

/-- C9: every cutoff settable by CC 26 lies in [0,1] and every resonance
settable by CC 27 lies in [0,4], and for all coefficient inputs the filter
frequency coefficient is capped at 1.5 while the damping factor is floored
at 0.05. -/
theorem C9_filter_coefficient_bounds (a b : ℕ) (ha : a ≤ 127) (hb : b ≤ 127) :
    0 ≤ ccToCutoff a ∧ ccToCutoff a ≤ 1 ∧
    0 ≤ ccToResonance b ∧ ccToResonance b ≤ 4 ∧
    (∀ c r : ℚ, filterF c ≤ 3/2 ∧ 1/20 ≤ filterQ r) := by
  have ha' : (a : ℚ) ≤ 127 := by exact_mod_cast ha
  have hb' : (b : ℚ) ≤ 127 := by exact_mod_cast hb
  refine ⟨?_, ?_, ?_, ?_, fun c r => ⟨min_le_right _ _, le_max_right _ _⟩⟩
  · unfold ccToCutoff; positivity
  · unfold ccToCutoff
    rw [div_le_one (by norm_num)]
    exact ha'
  · unfold ccToResonance; positivity
  · unfold ccToResonance
    have : ((b : ℚ)) / 127 ≤ 1 := by rw [div_le_one (by norm_num)]; exact hb'
    linarith

/-- C9 witness: the bounds applied at the extreme CC values 127/127. -/
theorem C9_witness :
    (127 : ℕ) ≤ 127 ∧
    (0 ≤ ccToCutoff 127 ∧ ccToCutoff 127 ≤ 1 ∧
     0 ≤ ccToResonance 127 ∧ ccToResonance 127 ≤ 4 ∧
     (∀ c r : ℚ, filterF c ≤ 3/2 ∧ 1/20 ≤ filterQ r)) :=
  ⟨le_refl 127, C9_filter_coefficient_bounds 127 127 (le_refl 127) (le_refl 127)⟩

/-- C10: the conversion of the scaled, normalized mix to a 16-bit sample is
total and saturating: the result always lies in the signed 16-bit range,
and whenever the truncated value already lies in range the conversion is
exactly truncation (no wrap-around). -/
theorem C10_sample_cast_saturates :
    (∀ mix : ℚ,
      -32768 ≤ i16OfRat ((MAX_AMPLITUDE : ℚ) * (mix / (N_VOICES : ℚ))) ∧
      i16OfRat ((MAX_AMPLITUDE : ℚ) * (mix / (N_VOICES : ℚ))) ≤ 32767) ∧
    (∀ mix : ℚ,
      mixToWord mix =
        pack_lr_16 (i16OfRat ((MAX_AMPLITUDE : ℚ) * (mix / (N_VOICES : ℚ))))
          (i16OfRat ((MAX_AMPLITUDE : ℚ) * (mix / (N_VOICES : ℚ))))) ∧
    (∀ x : ℚ, -32768 ≤ ratTrunc x → ratTrunc x ≤ 32767 → i16OfRat x = ratTrunc x) := by
  refine ⟨fun mix => ?_, fun mix => rfl, fun x h1 h2 => ?_⟩
  · unfold i16OfRat
    exact ⟨le_max_left _ _, max_le (by norm_num) (min_le_left _ _)⟩
  · unfold i16OfRat
    rw [min_eq_right h2, max_eq_right h1]

/-- C10 witness: the in-range case applied at a concrete sample value. -/
theorem C10_witness :
    -32768 ≤ ratTrunc (100 : ℚ) ∧ ratTrunc (100 : ℚ) ≤ 32767 ∧
    i16OfRat (100 : ℚ) = ratTrunc (100 : ℚ) :=
  ⟨by norm_num [ratTrunc], by norm_num [ratTrunc],
   C10_sample_cast_saturates.2.2 100 (by norm_num [ratTrunc]) (by norm_num [ratTrunc])⟩

theorem foldl_queuePush_take (es : List MidiEvent) :
    ∀ q : List MidiEvent, q.length ≤ MIDI_QUEUE_SIZE →
      List.foldl queuePush q es = (q ++ es).take MIDI_QUEUE_SIZE := by
  induction es with
  | nil =>
      intro q hq
      simp [List.take_of_length_le hq]
  | cons e rest ih =>
      intro q hq
      by_cases hlt : q.length < MIDI_QUEUE_SIZE
      · have : queuePush q e = q ++ [e] := by unfold queuePush; rw [if_pos hlt]
        rw [List.foldl_cons, this, ih (q ++ [e]) (by simpa using hlt),
          List.append_assoc]
        simp
      · have hqe : q.length = MIDI_QUEUE_SIZE := le_antisymm hq (not_lt.1 hlt)
        have hpush : queuePush q e = q := by unfold queuePush; rw [if_neg hlt]
        rw [List.foldl_cons, hpush, ih q hq]
        have h1 : (q ++ e :: rest).take MIDI_QUEUE_SIZE = q := by
          rw [show MIDI_QUEUE_SIZE = q.length from hqe.symm]
          exact List.take_left q (e :: rest)
        have h2 : (q ++ rest).take MIDI_QUEUE_SIZE = q := by
          rw [show MIDI_QUEUE_SIZE = q.length from hqe.symm]
          exact List.take_left q rest
        rw [h1, h2]

/-- C3: starting from the empty queue, any sequence of pushes leaves
exactly the first 32 events in order (the newest excess events are the ones
dropped), so the queue length never exceeds 32 and the drain returns the
queued events in FIFO push order; a push on a full queue drops the new
event, and a push on a non-full queue appends it at the back. -/
theorem C3_queue_capacity_fifo (es q1 q2 : List MidiEvent) (e1 e2 : MidiEvent)
    (h1 : q1.length = MIDI_QUEUE_SIZE) (h2 : q2.length < MIDI_QUEUE_SIZE) :
    List.foldl queuePush [] es = es.take MIDI_QUEUE_SIZE ∧
    (List.foldl queuePush [] es).length ≤ MIDI_QUEUE_SIZE ∧
    queueDrain (List.foldl queuePush [] es) = (es.take MIDI_QUEUE_SIZE, []) ∧
    queuePush q1 e1 = q1 ∧
    queuePush q2 e2 = q2 ++ [e2] := by
  have hfold : List.foldl queuePush [] es = es.take MIDI_QUEUE_SIZE := by
    simpa using foldl_queuePush_take es [] (by simp)
  refine ⟨hfold, ?_, ?_, ?_, ?_⟩
  · rw [hfold]
    exact List.length_take_le MIDI_QUEUE_SIZE es
  · rw [hfold]; rfl
  · unfold queuePush
    rw [if_neg (by omega)]
  · unfold queuePush
    rw [if_pos h2]

/-- C3 witness: the capacity behaviour at a concrete full queue and a
concrete non-full queue. -/
theorem C3_witness :
    (List.replicate 32 ({ status := 144, data1 := 60, data2 := 1 } : MidiEvent)).length
        = MIDI_QUEUE_SIZE ∧
    ([] : List MidiEvent).length < MIDI_QUEUE_SIZE ∧
    queuePush (List.replicate 32 { status := 144, data1 := 60, data2 := 1 })
        { status := 128, data1 := 60, data2 := 0 }
      = List.replicate 32 { status := 144, data1 := 60, data2 := 1 } ∧
    queuePush [] { status := 128, data1 := 60, data2 := 0 }
      = [] ++ [{ status := 128, data1 := 60, data2 := 0 }] := by
  refine ⟨by decide, by decide, ?_, ?_⟩
  · exact (C3_queue_capacity_fifo []
      (List.replicate 32 { status := 144, data1 := 60, data2 := 1 }) []
      { status := 128, data1 := 60, data2 := 0 }
      { status := 128, data1 := 60, data2 := 0 } (by decide) (by decide)).2.2.2.1
  · exact (C3_queue_capacity_fifo []
      (List.replicate 32 { status := 144, data1 := 60, data2 := 1 }) []
      { status := 128, data1 := 60, data2 := 0 }
      { status := 128, data1 := 60, data2 := 0 } (by decide) (by decide)).2.2.2.2

/-- C5 counterexample: the claim is false because the producer loop in
src/main.rs enqueues packets without any status-nibble filtering — handing
it a System Real-Time byte (status 0xF8) starting from the empty queue puts
an event with a disallowed status nibble into the queue. -/
theorem C5_counterexample : ¬ producersFilterClaim := by
  intro h
  have hmem : ({ status := 248, data1 := 0, data2 := 0 } : MidiEvent) ∈
      mainHandlePacket [] 8 248 0 0 := by
    unfold mainHandlePacket queuePush
    simp [MIDI_QUEUE_SIZE]
  have hok := h.2 [] 8 248 0 0 (by simp)
    { status := 248, data1 := 0, data2 := 0 } hmem
  exact absurd hok (by decide)

/-- C5 amended: the `usb_input_task` producer (the input path of the
current source layout) discards every packet whose status nibble is not
Note-Off, Note-On or Control-Change, so the queue invariant is preserved on
that path; the legacy producer loop in src/main.rs does not filter. -/
theorem C5_usb_producer_filters (q : List MidiEvent) (b0 b1 b2 b3 : ℕ)
    (hq : ∀ e ∈ q, nibbleOK e) :
    ∀ e ∈ usbHandlePacket q b0 b1 b2 b3, nibbleOK e := by
  intro e he
  unfold usbHandlePacket at he
  by_cases hny : b1 &&& 240 = 176 ∨ b1 &&& 240 = 144 ∨ b1 &&& 240 = 128
  · rw [if_pos hny] at he
    unfold queuePush at he
    by_cases hlen : q.length < MIDI_QUEUE_SIZE
    · rw [if_pos hlen] at he
      rcases List.mem_append.1 he with hin | hin
      · exact hq e hin
      · have he2 : e = { status := b1, data1 := b2, data2 := b3 } := by
          simpa using hin
        subst he2
        unfold nibbleOK
        tauto
    · rw [if_neg hlen] at he
      exact hq e he
  · rw [if_neg hny] at he
    exact hq e he

/-- C5 amended witness: a Note-On packet passed through the filtering
producer on the empty queue. -/
theorem C5_witness :
    (∀ e ∈ ([] : List MidiEvent), nibbleOK e) ∧
    (∀ e ∈ usbHandlePacket [] 9 144 60 100, nibbleOK e) :=
  ⟨by simp, C5_usb_producer_filters [] 9 144 60 100 (by simp)⟩

theorem noteOffAll_idem (s : Synth) (note : ℕ) :
    noteOffAll (noteOffAll s note) note = noteOffAll s note := by
  unfold noteOffAll
  simp only [List.map_map]
  congr 1
  apply List.map_congr_left
  intro v _
  by_cases hc : v.note = note ∧ v.gate = true
  · rw [if_pos hc]
    simp only [Function.comp_apply]
    rw [if_pos hc]
    have : (v.noteOff s.release_time_s).gate = false := rfl
    rw [if_neg (by simp [this])]
  · rw [if_neg hc]
    simp only [Function.comp_apply]
    rw [if_neg hc, if_neg hc]

/-- C8: a second note-off for the same note (with no intervening events) is
a no-op — the first clears every matching gate, so the second finds no
matching gated voice and neither recomputes the release increment nor
changes any voice. -/
theorem C8_note_off_idempotent (freqOf : ℕ → ℚ) (s : Synth) (e : MidiEvent)
    (h : e.status &&& 240 = 128 ∨ (e.status &&& 240 = 144 ∧ e.data2 = 0)) :
    applyEvent freqOf (applyEvent freqOf s e) e = applyEvent freqOf s e := by
  rcases h with h | ⟨h, h2⟩
  · unfold applyEvent
    rw [h]
    norm_num
    exact noteOffAll_idem s e.data1
  · unfold applyEvent
    rw [h, h2]
    norm_num
    exact noteOffAll_idem s e.data1

/-- C8 witness: a concrete double note-off on a synth holding the note. -/
theorem C8_witness :
    (({ status := 128, data1 := 5, data2 := 0 } : MidiEvent).status &&& 240 = 128 ∨
      (({ status := 128, data1 := 5, data2 := 0 } : MidiEvent).status &&& 240 = 144 ∧
       ({ status := 128, data1 := 5, data2 := 0 } : MidiEvent).data2 = 0)) ∧
    applyEvent freq0
        (applyEvent freq0 gatedSynth { status := 128, data1 := 5, data2 := 0 })
        { status := 128, data1 := 5, data2 := 0 } =
      applyEvent freq0 gatedSynth { status := 128, data1 := 5, data2 := 0 } :=
  ⟨Or.inl (by decide),
   C8_note_off_idempotent freq0 gatedSynth { status := 128, data1 := 5, data2 := 0 }
     (Or.inl (by decide))⟩

theorem drainLoop_eq_foldl (freqOf : ℕ → ℚ) (q : List MidiEvent) :
    ∀ s : Synth, drainLoop freqOf s q = (List.foldl (applyEvent freqOf) s q, []) := by
  induction q with
  | nil => intro s; rfl
  | cons e rest ih =>
      intro s
      rw [List.foldl_cons]
      exact ih (applyEvent freqOf s e)

theorem renderLoop_length (sinA : ℚ → ℚ) (buf : List ℕ) :
    ∀ s : Synth, ((renderLoop sinA s buf).1).length = buf.length := by
  induction buf with
  | nil => intro s; rfl
  | cons w rest ih =>
      intro s
      unfold renderLoop
      simp only [List.length_cons]
      rw [ih]

theorem renderLoop_indep (sinA : ℚ → ℚ) (buf : List ℕ) :
    ∀ (buf2 : List ℕ) (s : Synth), buf2.length = buf.length →
      renderLoop sinA s buf2 = renderLoop sinA s buf := by
  induction buf with
  | nil =>
      intro buf2 s h
      rw [List.length_eq_zero.1 h]
  | cons w rest ih =>
      intro buf2 s h
      cases buf2 with
      | nil => exact absurd h (by simp)
      | cons w2 rest2 =>
          simp only [renderLoop]
          rw [ih rest2 _ (by simpa using h)]

/-- C6: every `process` call first applies all pending events in FIFO order
(the state entering the render phase is the left fold of the event handler
over the queued events, and the queue is left empty), then overwrites every
frame of the buffer (the output has the buffer's length and does not depend
on the buffer's previous contents), and always returns the continue
signal. -/
theorem C6_process_contract (sinA : ℚ → ℚ) (freqOf : ℕ → ℚ) (s : Synth)
    (q : List MidiEvent) (buf : List ℕ) :
    (process sinA freqOf s q buf).pending = [] ∧
    (process sinA freqOf s q buf).flow = ControlFlowU.Continue ∧
    (process sinA freqOf s q buf).synth =
      (renderLoop sinA (List.foldl (applyEvent freqOf) s q) buf).2 ∧
    (process sinA freqOf s q buf).buf =
      (renderLoop sinA (List.foldl (applyEvent freqOf) s q) buf).1 ∧
    (process sinA freqOf s q buf).buf.length = buf.length ∧
    (∀ buf2 : List ℕ, buf2.length = buf.length →
      process sinA freqOf s q buf2 = process sinA freqOf s q buf) := by
  refine ⟨?_, rfl, ?_, ?_, ?_, ?_⟩
  · unfold process
    rw [drainLoop_eq_foldl]
  · unfold process
    rw [drainLoop_eq_foldl]
  · unfold process
    rw [drainLoop_eq_foldl]
  · unfold process
    rw [drainLoop_eq_foldl]
    exact renderLoop_length sinA buf _
  · intro buf2 h2
    simp only [process]
    rw [renderLoop_indep sinA buf buf2 _ h2]

/-- C6 witness: the contract applied at a concrete state and two buffers of
equal length. -/
theorem C6_witness :
    (process sin0 freq0 Synth.new [] [5, 6]).pending = [] ∧
    (process sin0 freq0 Synth.new [] [5, 6]).flow = ControlFlowU.Continue ∧
    process sin0 freq0 Synth.new [] [7, 8] = process sin0 freq0 Synth.new [] [5, 6] :=
  ⟨(C6_process_contract sin0 freq0 Synth.new [] [5, 6]).1,
   (C6_process_contract sin0 freq0 Synth.new [] [5, 6]).2.1,
   (C6_process_contract sin0 freq0 Synth.new [] [5, 6]).2.2.2.2.2 [7, 8] rfl⟩

/-- C1 amended: during `Attack`, provided the per-sample attack increment
is non-negative (true of every increment the source computes) and the
current level does not exceed the target amplitude, the per-sample update
is non-decreasing and keeps the level at most the target; a voice whose
level exceeds its target amplitude — possible only for a voice just stolen
at a lower velocity, since stealing keeps the envelope level — is clamped
down to exactly the target by the next update, after which the bound
holds. -/
theorem C1_attack_step (v : Voice) (hst : v.stage = EnvStage.Attack)
    (hinc : 0 ≤ v.attack_inc) :
    (v.env ≤ v.target_amp →
      v.env ≤ (envStep v).env ∧ (envStep v).env ≤ v.target_amp) ∧
    (v.target_amp < v.env → (envStep v).env = v.target_amp) := by
  unfold envStep
  rw [hst]
  by_cases hc : v.target_amp ≤ v.env + v.attack_inc
  · rw [if_pos hc]
    exact ⟨fun hle => ⟨hle, le_refl _⟩, fun _ => rfl⟩
  · rw [if_neg hc]
    constructor
    · intro _
      constructor
      · simpa using hinc
      · simpa using le_of_not_le hc
    · intro hgt
      exact absurd (le_of_lt (lt_of_lt_of_le hgt (by simpa using hinc))) hc

/-- C1 amended witness: the attack step applied to a concrete voice in
`Attack` below its target. -/
theorem C1_attack_step_witness :
    attackVoice.stage = EnvStage.Attack ∧ (0 : ℚ) ≤ attackVoice.attack_inc ∧
    ((attackVoice.env ≤ attackVoice.target_amp →
       attackVoice.env ≤ (envStep attackVoice).env ∧
       (envStep attackVoice).env ≤ attackVoice.target_amp) ∧
     (attackVoice.target_amp < attackVoice.env →
       (envStep attackVoice).env = attackVoice.target_amp)) :=
  ⟨rfl, by decide, C1_attack_step attackVoice rfl (by decide)⟩

/-- C1 counterexample: the claim as stated fails on a reachable state.
Setting the attack time to its minimum, starting ten full-velocity notes
and rendering one sample brings every voice to level 1/48 in `Attack`; a
note-on at velocity 1 then steals voice 0 without resetting its level, so
voice 0 is in `Attack` with level 1/48 above its new target 1/127, and the
next envelope update decreases the level from 1/48 to 1/127. -/
theorem C1_counterexample : ¬ attackMonotoneClaim sin0 freq0 := by
  intro h
  have hr : Reachable sin0 freq0 cexSynth2 :=
    Reachable.step cexSynth1 [{ status := 144, data1 := 70, data2 := 1 }] []
      (Reachable.step Synth.new cexQueue1 [0] Reachable.init)
  have h0 := h cexSynth2 hr (cexSynth2.voices.getD 0 Voice.new)
    (by decide) (by decide)
  exact absurd h0.1 (by decide)

theorem envStep_release (u : Voice) (hst : u.stage = EnvStage.Release) :
    envStep u = if u.env - u.release_inc ≤ 0
      then { u with env := 0, stage := EnvStage.Idle, gate := false }
      else { u with env := u.env - u.release_inc } := by
  unfold envStep
  rw [hst]

theorem envStep_idle (u : Voice) (hst : u.stage = EnvStage.Idle) :
    envStep u = u := by
  unfold envStep
  rw [hst]

theorem release_iter (v : Voice) (hst : v.stage = EnvStage.Release)
    (hc : 0 < v.release_inc) (he : 0 < v.env) : ∀ k : ℕ,
    (0 < v.env - (k : ℚ) * v.release_inc →
      (envStep^[k] v).stage = EnvStage.Release ∧
      (envStep^[k] v).env = v.env - (k : ℚ) * v.release_inc ∧
      (envStep^[k] v).release_inc = v.release_inc) ∧
    (v.env - (k : ℚ) * v.release_inc ≤ 0 →
      (envStep^[k] v).stage = EnvStage.Idle ∧ (envStep^[k] v).env = 0) := by
  intro k
  induction k with
  | zero =>
      constructor
      · intro _
        refine ⟨by simpa using hst, by push_cast; simp, rfl⟩
      · intro h0
        push_cast at h0
        exact absurd he (by linarith)
  | succ k ih =>
      constructor
      · intro hpos
        push_cast at hpos
        have hposk : 0 < v.env - (k : ℚ) * v.release_inc := by linarith
        obtain ⟨hs, henv, hinc⟩ := ih.1 hposk
        rw [Function.iterate_succ_apply', envStep_release _ hs, henv, hinc,
          if_neg (by linarith)]
        refine ⟨by simpa using hs, by simp; ring, by simp⟩
      · intro hle
        push_cast at hle
        by_cases hposk : 0 < v.env - (k : ℚ) * v.release_inc
        · obtain ⟨hs, henv, hinc⟩ := ih.1 hposk
          rw [Function.iterate_succ_apply', envStep_release _ hs, henv, hinc,
            if_pos (by linarith)]
          exact ⟨rfl, rfl⟩
        · obtain ⟨hs, henv⟩ := ih.2 (le_of_not_lt hposk)
          rw [Function.iterate_succ_apply', envStep_idle _ hs]
          exact ⟨hs, henv⟩

theorem release_iter_zero (v : Voice) (hst : v.stage = EnvStage.Release)
    (hc : v.release_inc = 0) (he : v.env = 0) : ∀ k : ℕ,
    (envStep^[k + 1] v).stage = EnvStage.Idle ∧ (envStep^[k + 1] v).env = 0 := by
  intro k
  induction k with
  | zero =>
      rw [show (0 + 1 : ℕ) = 1 from rfl, Function.iterate_one,
        envStep_release _ hst, if_pos (by rw [hc, he]; norm_num)]
      exact ⟨rfl, rfl⟩
  | succ k ih =>
      rw [Function.iterate_succ_apply', envStep_idle _ ih.1]
      exact ih

theorem getD_map_lt (f : Voice → Voice) (l : List Voice) :
    ∀ j : ℕ, j < l.length → ∀ d d2 : Voice, (l.map f).getD j d = f (l.getD j d2) := by
  induction l with
  | nil =>
      intro j hj
      simp at hj
  | cons v vs ih =>
      intro j hj d d2
      cases j with
      | zero => rfl
      | succ j =>
          rw [List.map_cons, List.getD_cons_succ, List.getD_cons_succ]
          exact ih j (by simpa using hj) d d2

theorem voices_noteOffAll (s : Synth) (note : ℕ) :
    (noteOffAll s note).voices = s.voices.map (fun v =>
      if v.note = note ∧ v.gate = true then v.noteOff s.release_time_s else v) := rfl

theorem release_monotone_pos (w : Voice) (hst : w.stage = EnvStage.Release)
    (hc : 0 < w.release_inc) (he : 0 < w.env) (k : ℕ) :
    (envStep^[k + 1] w).env ≤ (envStep^[k] w).env := by
  have R := release_iter w hst hc he
  by_cases h1 : 0 < w.env - ((k + 1 : ℕ) : ℚ) * w.release_inc
  · have h0 : 0 < w.env - (k : ℚ) * w.release_inc := by
      push_cast at h1
      linarith
    rw [((R (k + 1)).1 h1).2.1, ((R k).1 h0).2.1]
    push_cast
    linarith
  · have e1 := ((R (k + 1)).2 (le_of_not_lt h1)).2
    by_cases h0 : 0 < w.env - (k : ℚ) * w.release_inc
    · rw [e1, ((R k).1 h0).2.1]
      linarith
    · rw [e1, ((R k).2 (le_of_not_lt h0)).2]

theorem release_reaches_zero_pos (w : Voice) (hst : w.stage = EnvStage.Release)
    (hc : 0 < w.release_inc) (he : 0 < w.env) (k : ℕ)
    (hk : w.env ≤ (k : ℚ) * w.release_inc) :
    (envStep^[k] w).env = 0 ∧ (envStep^[k] w).stage = EnvStage.Idle := by
  have h := (release_iter w hst hc he k).2 (by linarith)
  exact ⟨h.2, h.1⟩

theorem release_env_zero (w : Voice) (hst : w.stage = EnvStage.Release)
    (hc : w.release_inc = 0) (he : w.env = 0) (k : ℕ) :
    (envStep^[k] w).env = 0 := by
  cases k with
  | zero => exact he
  | succ k => exact (release_iter_zero w hst hc he k).2

/-- C4: for a note-off event, every voice whose note matches and whose gate
is set has its gate cleared, its release increment set to the current
envelope level divided by `release_time_s * SAMPLE_RATE`, and its stage set
to `Release`; thereafter the per-sample envelope level is non-increasing
and reaches exactly 0 — at which point the stage becomes `Idle` — within
the configured release duration plus or minus one sample. -/
theorem C4_note_off_release (s : Synth) (note j : ℕ)
    (hj : j < s.voices.length)
    (hnote : (s.voices.getD j Voice.new).note = note)
    (hgate : (s.voices.getD j Voice.new).gate = true)
    (henv : 0 ≤ (s.voices.getD j Voice.new).env)
    (hrel : 1 ≤ s.release_time_s * (SAMPLE_RATE : ℚ)) :
    (noteOffAll s note).voices.getD j Voice.new =
      Voice.noteOff (s.voices.getD j Voice.new) s.release_time_s ∧
    ((noteOffAll s note).voices.getD j Voice.new).gate = false ∧
    ((noteOffAll s note).voices.getD j Voice.new).stage = EnvStage.Release ∧
    ((noteOffAll s note).voices.getD j Voice.new).release_inc =
      (s.voices.getD j Voice.new).env / (s.release_time_s * (SAMPLE_RATE : ℚ)) ∧
    (∀ k : ℕ,
      (envStep^[k + 1] ((noteOffAll s note).voices.getD j Voice.new)).env ≤
        (envStep^[k] ((noteOffAll s note).voices.getD j Voice.new)).env) ∧
    (∃ k : ℕ, s.release_time_s * (SAMPLE_RATE : ℚ) - 1 ≤ (k : ℚ) ∧
      (k : ℚ) ≤ s.release_time_s * (SAMPLE_RATE : ℚ) + 1 ∧
      (envStep^[k] ((noteOffAll s note).voices.getD j Voice.new)).env = 0 ∧
      (envStep^[k] ((noteOffAll s note).voices.getD j Voice.new)).stage
        = EnvStage.Idle) := by
  have hS0 : (0 : ℚ) < s.release_time_s * (SAMPLE_RATE : ℚ) :=
    lt_of_lt_of_le one_pos hrel
  have hw : (noteOffAll s note).voices.getD j Voice.new =
      Voice.noteOff (s.voices.getD j Voice.new) s.release_time_s := by
    rw [voices_noteOffAll, getD_map_lt _ s.voices j hj Voice.new Voice.new,
      if_pos ⟨hnote, hgate⟩]
  have hw2 : Voice.noteOff (s.voices.getD j Voice.new) s.release_time_s =
      { s.voices.getD j Voice.new with
        gate := false
        release_inc := (s.voices.getD j Voice.new).env /
          (s.release_time_s * (SAMPLE_RATE : ℚ))
        stage := EnvStage.Release } := by
    simp only [Voice.noteOff]
    rw [max_eq_left hrel, if_pos hS0]
  rw [hw, hw2]
  refine ⟨rfl, rfl, rfl, rfl, ?_, ?_⟩
  · -- per-sample monotonicity of the released envelope
    intro k
    rcases eq_or_lt_of_le henv with he0 | he0
    · have hz := release_env_zero
        { s.voices.getD j Voice.new with
          gate := false
          release_inc := (s.voices.getD j Voice.new).env /
            (s.release_time_s * (SAMPLE_RATE : ℚ))
          stage := EnvStage.Release } rfl
        (by show (s.voices.getD j Voice.new).env / _ = 0
            rw [← he0, zero_div])
        (by show (s.voices.getD j Voice.new).env = 0
            exact he0.symm)
      rw [hz (k + 1), hz k]
    · exact release_monotone_pos
        { s.voices.getD j Voice.new with
          gate := false
          release_inc := (s.voices.getD j Voice.new).env /
            (s.release_time_s * (SAMPLE_RATE : ℚ))
          stage := EnvStage.Release } rfl (div_pos he0 hS0) he0 k
  · -- the envelope reaches exactly 0 within the release duration ± 1 sample
    have hle : s.release_time_s * (SAMPLE_RATE : ℚ) ≤
        ((⌈s.release_time_s * (SAMPLE_RATE : ℚ)⌉ : ℤ) : ℚ) := Int.le_ceil _
    have hlt : ((⌈s.release_time_s * (SAMPLE_RATE : ℚ)⌉ : ℤ) : ℚ) <
        s.release_time_s * (SAMPLE_RATE : ℚ) + 1 := Int.ceil_lt_add_one _
    have hpos : (0 : ℤ) < ⌈s.release_time_s * (SAMPLE_RATE : ℚ)⌉ :=
      Int.ceil_pos.2 hS0
    have hcast : ((((⌈s.release_time_s * (SAMPLE_RATE : ℚ)⌉).toNat : ℕ)) : ℚ) =
        ((⌈s.release_time_s * (SAMPLE_RATE : ℚ)⌉ : ℤ) : ℚ) := by
      have h1 : (((⌈s.release_time_s * (SAMPLE_RATE : ℚ)⌉).toNat : ℤ)) =
          ⌈s.release_time_s * (SAMPLE_RATE : ℚ)⌉ := Int.toNat_of_nonneg hpos.le
      exact_mod_cast congrArg (fun z : ℤ => (z : ℚ)) h1
    refine ⟨(⌈s.release_time_s * (SAMPLE_RATE : ℚ)⌉).toNat,
      by rw [hcast]; linarith, by rw [hcast]; linarith, ?_⟩
    rcases eq_or_lt_of_le henv with he0 | he0
    · have hone : 1 ≤ (⌈s.release_time_s * (SAMPLE_RATE : ℚ)⌉).toNat := by omega
      obtain ⟨m, hm⟩ : ∃ m, (⌈s.release_time_s * (SAMPLE_RATE : ℚ)⌉).toNat = m + 1 :=
        ⟨(⌈s.release_time_s * (SAMPLE_RATE : ℚ)⌉).toNat - 1, by omega⟩
      rw [hm]
      have hz := release_iter_zero
        { s.voices.getD j Voice.new with
          gate := false
          release_inc := (s.voices.getD j Voice.new).env /
            (s.release_time_s * (SAMPLE_RATE : ℚ))
          stage := EnvStage.Release } rfl
        (by show (s.voices.getD j Voice.new).env / _ = 0
            rw [← he0, zero_div])
        (by show (s.voices.getD j Voice.new).env = 0
            exact he0.symm) m
      exact ⟨hz.2, hz.1⟩
    · refine release_reaches_zero_pos
        { s.voices.getD j Voice.new with
          gate := false
          release_inc := (s.voices.getD j Voice.new).env /
            (s.release_time_s * (SAMPLE_RATE : ℚ))
          stage := EnvStage.Release } rfl (div_pos he0 hS0) he0 _ ?_
      show (s.voices.getD j Voice.new).env ≤ _ * ((s.voices.getD j Voice.new).env /
        (s.release_time_s * (SAMPLE_RATE : ℚ)))
      have hfs : (s.release_time_s * (SAMPLE_RATE : ℚ)) *
          ((s.voices.getD j Voice.new).env /
            (s.release_time_s * (SAMPLE_RATE : ℚ))) =
          (s.voices.getD j Voice.new).env := by
        field_simp
      calc (s.voices.getD j Voice.new).env
          = (s.release_time_s * (SAMPLE_RATE : ℚ)) *
              ((s.voices.getD j Voice.new).env /
                (s.release_time_s * (SAMPLE_RATE : ℚ))) := hfs.symm
        _ ≤ _ := by
            rw [hcast] at *
            apply mul_le_mul_of_nonneg_right
            · linarith
            · positivity

/-- C4 witness: the note-off contract applied to a concrete one-voice synth
holding note 5 at level 1. -/
theorem C4_witness :
    0 < gatedSynth.voices.length ∧
    (gatedSynth.voices.getD 0 Voice.new).note = 5 ∧
    (gatedSynth.voices.getD 0 Voice.new).gate = true ∧
    (0 : ℚ) ≤ (gatedSynth.voices.getD 0 Voice.new).env ∧
    (1 : ℚ) ≤ gatedSynth.release_time_s * (SAMPLE_RATE : ℚ) ∧
    ((noteOffAll gatedSynth 5).voices.getD 0 Voice.new).gate = false ∧
    ((noteOffAll gatedSynth 5).voices.getD 0 Voice.new).stage = EnvStage.Release ∧
    ((noteOffAll gatedSynth 5).voices.getD 0 Voice.new).release_inc =
      (gatedSynth.voices.getD 0 Voice.new).env /
        (gatedSynth.release_time_s * (SAMPLE_RATE : ℚ)) ∧
    (∃ k : ℕ, gatedSynth.release_time_s * (SAMPLE_RATE : ℚ) - 1 ≤ (k : ℚ) ∧
      (k : ℚ) ≤ gatedSynth.release_time_s * (SAMPLE_RATE : ℚ) + 1 ∧
      (envStep^[k] ((noteOffAll gatedSynth 5).voices.getD 0 Voice.new)).env = 0 ∧
      (envStep^[k] ((noteOffAll gatedSynth 5).voices.getD 0 Voice.new)).stage
        = EnvStage.Idle) := by
  have h := C4_note_off_release gatedSynth 5 0 (by decide) (by decide) (by decide)
    (by decide) (by decide)
  exact ⟨by decide, by decide, by decide, by decide, by decide,
    h.2.1, h.2.2.1, h.2.2.2.1, h.2.2.2.2.2⟩

theorem firstInactive_some (l : List Voice) :
    ∀ i : ℕ, firstInactive l = some i →
      i < l.length ∧ (l.getD i Voice.new).active = false ∧
      ∀ j, j < i → (l.getD j Voice.new).active = true := by
  induction l with
  | nil =>
      intro i h
      exact absurd h (by simp [firstInactive])
  | cons v vs ih =>
      intro i h
      by_cases ha : v.active = true
      · rw [firstInactive, if_pos ha] at h
        cases hfi : firstInactive vs with
        | none =>
            rw [hfi] at h
            exact absurd h (by simp)
        | some i0 =>
            rw [hfi] at h
            simp at h
            obtain ⟨h1, h2, h3⟩ := ih i0 hfi
            subst h
            refine ⟨by simpa using h1, by simpa using h2, ?_⟩
            intro j hj
            cases j with
            | zero => simpa using ha
            | succ j =>
                rw [List.getD_cons_succ]
                exact h3 j (by omega)
      · rw [firstInactive, if_neg ha] at h
        simp at h
        subst h
        refine ⟨by simp, by simpa using ha, ?_⟩
        intro j hj
        omega

theorem firstInactive_none (l : List Voice) :
    firstInactive l = none →
      ∀ j, j < l.length → (l.getD j Voice.new).active = true := by
  induction l with
  | nil =>
      intro _ j hj
      simp at hj
  | cons v vs ih =>
      intro h j hj
      by_cases ha : v.active = true
      · rw [firstInactive, if_pos ha] at h
        cases hfi : firstInactive vs with
        | none =>
            cases j with
            | zero => simpa using ha
            | succ j =>
                rw [List.getD_cons_succ]
                exact ih (by rw [hfi]) j (by simpa using hj)
        | some i0 =>
            rw [hfi] at h
            simp at h
      · rw [firstInactive, if_neg ha] at h
        simp at h

theorem minByAgeGo_spec : ∀ (ws : List Voice) (k : ℕ) (best : ℕ × Voice),
    (minByAgeGo k best ws = best ∧
      ∀ m, m < ws.length → best.2.age ≤ (ws.getD m Voice.new).age) ∨
    (∃ m, m < ws.length ∧
      minByAgeGo k best ws = (k + m, ws.getD m Voice.new) ∧
      (ws.getD m Voice.new).age < best.2.age ∧
      (∀ p, p < ws.length →
        (ws.getD m Voice.new).age ≤ (ws.getD p Voice.new).age) ∧
      (∀ p, p < m → (ws.getD m Voice.new).age < (ws.getD p Voice.new).age)) := by
  intro ws
  induction ws with
  | nil =>
      intro k best
      left
      refine ⟨rfl, ?_⟩
      intro m hm
      simp at hm
  | cons w t ih =>
      intro k best
      by_cases hw : w.age < best.2.age
      · rcases ih (k + 1) (k, w) with ⟨heq, hmin⟩ | ⟨m, hm, heq, hlt, hall, hfirst⟩
        · right
          refine ⟨0, by simp, ?_, ?_, ?_, ?_⟩
          · rw [minByAgeGo, if_pos hw, heq, List.getD_cons_zero]
            simp
          · simpa using hw
          · intro p hp
            cases p with
            | zero => simp
            | succ p =>
                rw [List.getD_cons_zero, List.getD_cons_succ]
                exact hmin p (by simpa using hp)
          · intro p hp
            omega
        · right
          refine ⟨m + 1, by simpa using hm, ?_, ?_, ?_, ?_⟩
          · rw [minByAgeGo, if_pos hw, heq, List.getD_cons_succ]
            congr 1
            omega
          · exact lt_trans (by simpa using hlt) hw
          · intro p hp
            cases p with
            | zero =>
                rw [List.getD_cons_succ, List.getD_cons_zero]
                exact le_of_lt (by simpa using hlt)
            | succ p =>
                rw [List.getD_cons_succ, List.getD_cons_succ]
                exact hall p (by simpa using hp)
          · intro p hp
            cases p with
            | zero =>
                rw [List.getD_cons_succ, List.getD_cons_zero]
                exact (by simpa using hlt)
            | succ p =>
                rw [List.getD_cons_succ, List.getD_cons_succ]
                exact hfirst p (by omega)
      · rcases ih (k + 1) best with ⟨heq, hmin⟩ | ⟨m, hm, heq, hlt, hall, hfirst⟩
        · left
          refine ⟨?_, ?_⟩
          · rw [minByAgeGo, if_neg hw, heq]
          · intro m hm
            cases m with
            | zero =>
                rw [List.getD_cons_zero]
                exact le_of_not_lt hw
            | succ m =>
                rw [List.getD_cons_succ]
                exact hmin m (by simpa using hm)
        · right
          refine ⟨m + 1, by simpa using hm, ?_, ?_, ?_, ?_⟩
          · rw [minByAgeGo, if_neg hw, heq, List.getD_cons_succ]
            congr 1
            omega
          · rw [List.getD_cons_succ]
            exact hlt
          · intro p hp
            cases p with
            | zero =>
                rw [List.getD_cons_succ, List.getD_cons_zero]
                exact le_trans (le_of_lt hlt) (le_of_not_lt hw)
            | succ p =>
                rw [List.getD_cons_succ, List.getD_cons_succ]
                exact hall p (by simpa using hp)
          · intro p hp
            cases p with
            | zero =>
                rw [List.getD_cons_succ, List.getD_cons_zero]
                exact lt_of_lt_of_le hlt (le_of_not_lt hw)
            | succ p =>
                rw [List.getD_cons_succ, List.getD_cons_succ]
                exact hfirst p (by omega)

theorem minByAge_spec (l : List Voice) (i : ℕ) (v : Voice)
    (h : minByAge l = some (i, v)) :
    i < l.length ∧ v = l.getD i Voice.new ∧
    (∀ j, j < l.length → v.age ≤ (l.getD j Voice.new).age) ∧
    (∀ j, j < i → v.age < (l.getD j Voice.new).age) := by
  cases l with
  | nil => exact absurd h (by simp [minByAge])
  | cons v0 vs =>
      rw [minByAge] at h
      simp only [Option.some.injEq] at h
      rcases minByAgeGo_spec vs 1 (0, v0) with ⟨heq, hmin⟩ | ⟨m, hm, heq, hlt, hall, hfirst⟩
      · have hiv : ((0 : ℕ), v0) = (i, v) := heq.symm.trans h
        have hi : (0 : ℕ) = i := congrArg Prod.fst hiv
        have hv : v0 = v := congrArg Prod.snd hiv
        subst hi
        subst hv
        refine ⟨by simp, rfl, ?_, ?_⟩
        · intro j hj
          cases j with
          | zero => simp
          | succ j =>
              rw [List.getD_cons_succ]
              exact hmin j (by simpa using hj)
        · intro j hj
          omega
      · have hiv : ((1 + m : ℕ), vs.getD m Voice.new) = (i, v) := heq.symm.trans h
        have hi : (1 + m : ℕ) = i := congrArg Prod.fst hiv
        have hv : vs.getD m Voice.new = v := congrArg Prod.snd hiv
        subst hi
        subst hv
        refine ⟨by simp; omega, ?_, ?_, ?_⟩
        · rw [show (1 + m : ℕ) = m + 1 by omega, List.getD_cons_succ]
        · intro j hj
          cases j with
          | zero =>
              rw [List.getD_cons_zero]
              exact le_of_lt (by simpa using hlt)
          | succ j =>
              rw [List.getD_cons_succ]
              exact hall j (by simpa using hj)
        · intro j hj
          cases j with
          | zero =>
              rw [List.getD_cons_zero]
              exact (by simpa using hlt)
          | succ j =>
              rw [List.getD_cons_succ]
              exact hfirst j (by omega)

theorem length_modifyAt (f : Voice → Voice) :
    ∀ (l : List Voice) (i : ℕ), (modifyAt f l i).length = l.length := by
  intro l
  induction l with
  | nil => intro i; rfl
  | cons v vs ih =>
      intro i
      cases i with
      | zero => rfl
      | succ i =>
          rw [show modifyAt f (v :: vs) (i + 1) = v :: modifyAt f vs i from rfl]
          simp [ih i]

theorem getD_modifyAt_self (f : Voice → Voice) :
    ∀ (l : List Voice) (i : ℕ), i < l.length →
      ∀ d d2 : Voice, (modifyAt f l i).getD i d = f (l.getD i d2) := by
  intro l
  induction l with
  | nil =>
      intro i hi
      simp at hi
  | cons v vs ih =>
      intro i hi d d2
      cases i with
      | zero => rfl
      | succ i =>
          rw [show modifyAt f (v :: vs) (i + 1) = v :: modifyAt f vs i from rfl,
            List.getD_cons_succ, List.getD_cons_succ]
          exact ih i (by simpa using hi) d d2

theorem getD_modifyAt_ne (f : Voice → Voice) :
    ∀ (l : List Voice) (i j : ℕ), j ≠ i →
      ∀ d : Voice, (modifyAt f l i).getD j d = l.getD j d := by
  intro l
  induction l with
  | nil => intro i j _ d; rfl
  | cons v vs ih =>
      intro i j hne d
      cases i with
      | zero =>
          cases j with
          | zero => exact absurd rfl hne
          | succ j =>
              rw [show modifyAt f (v :: vs) 0 = f v :: vs from rfl,
                List.getD_cons_succ, List.getD_cons_succ]
      | succ i =>
          cases j with
          | zero => rfl
          | succ j =>
              rw [show modifyAt f (v :: vs) (i + 1) = v :: modifyAt f vs i from rfl,
                List.getD_cons_succ, List.getD_cons_succ]
              exact ih i j (by omega) d

theorem noteOn_eq (freqOf : ℕ → ℚ) (s : Synth) (note vel : ℕ) (i : ℕ)
    (h : chooseVoice s.voices = some i) :
    noteOn freqOf s note vel = { s with
      age_counter := (s.age_counter + 1) % 4294967296
      voices := modifyAt
        (fun v => v.startWithAdsr note (freqOf note) ((vel : ℚ)/127)
          ((s.age_counter + 1) % 4294967296) s.attack_time_s s.decay_time_s
          s.sustain_level) s.voices i } := by
  unfold noteOn
  rw [h]

theorem noteOn_assign (freqOf : ℕ → ℚ) (s : Synth) (note vel : ℕ) (i : ℕ)
    (hcv : chooseVoice s.voices = some i) (hi : i < s.voices.length) :
    (noteOn freqOf s note vel).voices.length = s.voices.length ∧
    (∀ j, j < s.voices.length → j ≠ i →
      (noteOn freqOf s note vel).voices.getD j Voice.new =
        s.voices.getD j Voice.new) ∧
    ((noteOn freqOf s note vel).voices.getD i Voice.new).note = note ∧
    ((noteOn freqOf s note vel).voices.getD i Voice.new).freq = freqOf note ∧
    ((noteOn freqOf s note vel).voices.getD i Voice.new).target_amp
      = (vel : ℚ)/127 ∧
    ((noteOn freqOf s note vel).voices.getD i Voice.new).gate = true ∧
    ((noteOn freqOf s note vel).voices.getD i Voice.new).stage
      = EnvStage.Attack ∧
    (0 < (s.voices.getD i Voice.new).env →
      ((noteOn freqOf s note vel).voices.getD i Voice.new).env
        = (s.voices.getD i Voice.new).env) := by
  rw [noteOn_eq freqOf s note vel i hcv]
  refine ⟨length_modifyAt _ s.voices i, ?_, ?_, ?_, ?_, ?_, ?_, ?_⟩
  · intro j _ hji
    exact getD_modifyAt_ne _ s.voices i j hji Voice.new
  all_goals rw [getD_modifyAt_self _ s.voices i hi Voice.new Voice.new]
  · rfl
  · rfl
  · rfl
  · rfl
  · rfl
  · intro henv
    show (if (s.voices.getD i Voice.new).env ≤ 0 then 0
      else (s.voices.getD i Voice.new).env) = (s.voices.getD i Voice.new).env
    rw [if_neg (not_le.2 henv)]

/-- C2: a note-on event with positive velocity assigns exactly one voice:
the first voice (in scan order) that is not sounding if one exists,
otherwise the voice with the smallest age (first minimal index on ties);
the chosen voice gets the new note, frequency, target amplitude and a set
gate, its envelope level is not reset, and every other voice is
unchanged. -/
theorem C2_voice_allocation (freqOf : ℕ → ℚ) (s : Synth) (e : MidiEvent)
    (hst : e.status &&& 240 = 144) (hvel : 0 < e.data2)
    (hne : s.voices ≠ []) :
    ∃ i, i < s.voices.length ∧
      ((∃ j, j < s.voices.length ∧ (s.voices.getD j Voice.new).active = false) →
        ((s.voices.getD i Voice.new).active = false ∧
         ∀ j, j < i → (s.voices.getD j Voice.new).active = true)) ∧
      ((∀ j, j < s.voices.length → (s.voices.getD j Voice.new).active = true) →
        ((∀ j, j < s.voices.length →
            (s.voices.getD i Voice.new).age ≤ (s.voices.getD j Voice.new).age) ∧
         ∀ j, j < i →
            (s.voices.getD i Voice.new).age < (s.voices.getD j Voice.new).age)) ∧
      (applyEvent freqOf s e).voices.length = s.voices.length ∧
      (∀ j, j < s.voices.length → j ≠ i →
        (applyEvent freqOf s e).voices.getD j Voice.new =
          s.voices.getD j Voice.new) ∧
      ((applyEvent freqOf s e).voices.getD i Voice.new).note = e.data1 ∧
      ((applyEvent freqOf s e).voices.getD i Voice.new).freq = freqOf e.data1 ∧
      ((applyEvent freqOf s e).voices.getD i Voice.new).target_amp
        = (e.data2 : ℚ) / 127 ∧
      ((applyEvent freqOf s e).voices.getD i Voice.new).gate = true ∧
      ((applyEvent freqOf s e).voices.getD i Voice.new).stage = EnvStage.Attack ∧
      (0 < (s.voices.getD i Voice.new).env →
        ((applyEvent freqOf s e).voices.getD i Voice.new).env
          = (s.voices.getD i Voice.new).env) := by
  have happ : applyEvent freqOf s e = noteOn freqOf s e.data1 e.data2 := by
    unfold applyEvent
    rw [hst, if_neg (by norm_num), if_pos rfl, if_pos hvel]
  cases hfi : firstInactive s.voices with
  | some i0 =>
      have hcv : chooseVoice s.voices = some i0 := by
        unfold chooseVoice
        rw [hfi]
      obtain ⟨h1, h2, h3⟩ := firstInactive_some s.voices i0 hfi
      obtain ⟨ha1, ha2, ha3, ha4, ha5, ha6, ha7, ha8⟩ :=
        noteOn_assign freqOf s e.data1 e.data2 i0 hcv h1
      rw [happ]
      exact ⟨i0, h1, fun _ => ⟨h2, h3⟩,
        fun hall => absurd (hall i0 h1) (by rw [h2]; simp),
        ha1, ha2, ha3, ha4, ha5, ha6, ha7, ha8⟩
  | none =>
      obtain ⟨i0, v0, hmb⟩ : ∃ i0 v0, minByAge s.voices = some (i0, v0) := by
        cases hv : s.voices with
        | nil => exact absurd hv hne
        | cons v vs => exact ⟨_, _, rfl⟩
      have hcv : chooseVoice s.voices = some i0 := by
        unfold chooseVoice
        rw [hfi, hmb]
        rfl
      obtain ⟨h1, h2, h3, h4⟩ := minByAge_spec s.voices i0 v0 hmb
      obtain ⟨ha1, ha2, ha3, ha4, ha5, ha6, ha7, ha8⟩ :=
        noteOn_assign freqOf s e.data1 e.data2 i0 hcv h1
      rw [happ]
      refine ⟨i0, h1, ?_, ?_, ha1, ha2, ha3, ha4, ha5, ha6, ha7, ha8⟩
      · intro hex
        obtain ⟨j, hj, hact⟩ := hex
        exact absurd (firstInactive_none s.voices hfi j hj) (by rw [hact]; simp)
      · intro _
        constructor
        · intro j hj
          rw [← h2]
          exact h3 j hj
        · intro j hj
          rw [← h2]
          exact h4 j hj

/-- C2 witness: a note-on processed on the fresh ten-voice synth assigns
voice 0. -/
theorem C2_witness :
    (({ status := 144, data1 := 69, data2 := 100 } : MidiEvent).status &&& 240
      = 144) ∧
    0 < ({ status := 144, data1 := 69, data2 := 100 } : MidiEvent).data2 ∧
    Synth.new.voices ≠ [] ∧
    (∃ i, i < Synth.new.voices.length ∧
      ((∃ j, j < Synth.new.voices.length ∧
          (Synth.new.voices.getD j Voice.new).active = false) →
        ((Synth.new.voices.getD i Voice.new).active = false ∧
         ∀ j, j < i → (Synth.new.voices.getD j Voice.new).active = true)) ∧
      ((∀ j, j < Synth.new.voices.length →
          (Synth.new.voices.getD j Voice.new).active = true) →
        ((∀ j, j < Synth.new.voices.length →
            (Synth.new.voices.getD i Voice.new).age ≤
              (Synth.new.voices.getD j Voice.new).age) ∧
         ∀ j, j < i →
            (Synth.new.voices.getD i Voice.new).age <
              (Synth.new.voices.getD j Voice.new).age)) ∧
      (applyEvent freq0 Synth.new
        { status := 144, data1 := 69, data2 := 100 }).voices.length
          = Synth.new.voices.length ∧
      (∀ j, j < Synth.new.voices.length → j ≠ i →
        (applyEvent freq0 Synth.new
          { status := 144, data1 := 69, data2 := 100 }).voices.getD j Voice.new =
          Synth.new.voices.getD j Voice.new) ∧
      ((applyEvent freq0 Synth.new
        { status := 144, data1 := 69, data2 := 100 }).voices.getD i
          Voice.new).note = ({ status := 144, data1 := 69, data2 := 100 } :
            MidiEvent).data1 ∧
      ((applyEvent freq0 Synth.new
        { status := 144, data1 := 69, data2 := 100 }).voices.getD i
          Voice.new).freq = freq0 ({ status := 144, data1 := 69, data2 := 100 } :
            MidiEvent).data1 ∧
      ((applyEvent freq0 Synth.new
        { status := 144, data1 := 69, data2 := 100 }).voices.getD i
          Voice.new).target_amp = ((({ status := 144, data1 := 69, data2 := 100 } :
            MidiEvent).data2 : ℚ)) / 127 ∧
      ((applyEvent freq0 Synth.new
        { status := 144, data1 := 69, data2 := 100 }).voices.getD i
          Voice.new).gate = true ∧
      ((applyEvent freq0 Synth.new
        { status := 144, data1 := 69, data2 := 100 }).voices.getD i
          Voice.new).stage = EnvStage.Attack ∧
      (0 < (Synth.new.voices.getD i Voice.new).env →
        ((applyEvent freq0 Synth.new
          { status := 144, data1 := 69, data2 := 100 }).voices.getD i
            Voice.new).env = (Synth.new.voices.getD i Voice.new).env)) :=
  ⟨by decide, by decide, by decide,
   C2_voice_allocation freq0 Synth.new { status := 144, data1 := 69, data2 := 100 }
     (by decide) (by decide) (by decide)⟩

end Claims
